import Mathlib

/-!
Verification development for the `pman` password-manager repository.

The development shallowly embeds the two layers of the program:

* the sealed store (`CryptIOBroker.py`, and the older fixed-salt variant in
  `secure.py`): key derivation from a passphrase and a salt, an authenticated
  encryption envelope, and the `salt || ciphertext` on-disk layout;
* the record table (`pass.py`): CSV load/serialize over the fixed 9-field
  schema, regex lookup by organization, upsert, and the interactive
  field-update convention.

Byte strings and text are both modelled as `List Nat` (byte values,
respectively Unicode code points).  The cryptographic primitives (PBKDF2 and
Fernet) and the Python `csv`/`re` library routines are external to the
repository; they are modelled symbolically or as faithful executable
translations, as documented at each definition.
-/

deriving instance DecidableEq for Except

namespace Pman

/-- Text and byte strings: a list of natural numbers (code points / bytes). -/
abbrev Str : Type := List Nat

/-- Code points of a Lean string literal, used to write concrete values. -/
def strCodes (s : String) : Str := s.data.map Char.toNat

/-! ## UTF-8 model

`CryptIOBroker` encrypts `contents.encode('utf-8')` and decodes decrypted
bytes with `.decode('utf-8')`; the key derivation also starts from
`password.encode('utf-8')`.  The encoder below is the standard 1–4 byte UTF-8
encoding of a code point; the decoder is a strict byte machine (continuation
ranges, overlong forms, surrogates and out-of-range values rejected). -/
/-- A code point Python's strict UTF-8 codec accepts: in range and not a
surrogate. -/
def ValidCp (c : Nat) : Prop := c < 0x110000 ∧ (c < 0xD800 ∨ 0xE000 ≤ c)

instance (c : Nat) : Decidable (ValidCp c) := by unfold ValidCp; infer_instance

/-- UTF-8 encoding of a single code point. -/
def utf8EncodeChar (c : Nat) : List Nat :=
  if c < 0x80 then [c]
  else if c < 0x800 then [0xC0 + c / 64, 0x80 + c % 64]
  else if c < 0x10000 then [0xE0 + c / 4096, 0x80 + c / 64 % 64, 0x80 + c % 64]
  else [0xF0 + c / 262144, 0x80 + c / 4096 % 64, 0x80 + c / 64 % 64, 0x80 + c % 64]

/-- UTF-8 encoding of a code-point string. -/
def utf8Encode : Str → List Nat
  | [] => []
  | c :: cs => utf8EncodeChar c ++ utf8Encode cs

/-- UTF-8 decoding machine.  `k` counts continuation bytes still expected for
the current code point, `acc` its partial value, `lo` the smallest value the
current sequence is allowed to produce (overlong rejection), `out` the output
accumulated so far. -/
def u8run : List Nat → Nat → Nat → Nat → Str → Option Str
  | [], k, _, _, out => if k = 0 then some out else none
  | b :: bs, k, acc, lo, out =>
    if k = 0 then
      if b < 0x80 then u8run bs 0 0 0 (out ++ [b])
      else if b < 0xC2 then none
      else if b < 0xE0 then u8run bs 1 (b - 0xC0) 0x80 out
      else if b < 0xF0 then u8run bs 2 (b - 0xE0) 0x800 out
      else if b < 0xF5 then u8run bs 3 (b - 0xF0) 0x10000 out
      else none
    else
      if 0x80 ≤ b ∧ b < 0xC0 then
        if k = 1 then
          if lo ≤ acc * 64 + (b - 0x80) ∧ ValidCp (acc * 64 + (b - 0x80)) then
            u8run bs 0 0 0 (out ++ [acc * 64 + (b - 0x80)])
          else none
        else u8run bs (k - 1) (acc * 64 + (b - 0x80)) lo out
      else none

/-- Strict UTF-8 decoding; `none` on malformed input. -/
def utf8Decode (l : List Nat) : Option Str := u8run l 0 0 0 []

/-! ## Sealed store

`CryptIOBroker._getengine` derives a key with PBKDF2-HMAC-SHA256 over the
UTF-8 passphrase and the salt, and hands it to `cryptography.fernet.Fernet`.
PBKDF2 and Fernet are library primitives outside this repository, so they are
modelled symbolically, keeping exactly the interface contract the spec states
for them. -/
/-- Modelled from the spec: the password-based key-derivation step of
`CryptIOBroker._getengine` (PBKDF2-HMAC-SHA256, then base64 into a Fernet
key).  Modelled as an injective pairing of the UTF-8 passphrase bytes with
the salt: different passphrases (or salts) give different keys, which is the
idealised collision-freeness the construction is used for. -/
def kdf (password : Str) (salt : List Nat) : List Nat :=
  (utf8Encode password).length :: (utf8Encode password ++ salt)

/-- Modelled from the spec: `Fernet(key).encrypt` — an authenticated
encryption token.  Symbolic model: the token determines (and commits to) the
key, the fresh nonce `iv` and the plaintext. -/
def fernetEncrypt (key iv pt : List Nat) : List Nat :=
  key.length :: (key ++ iv ++ pt)

/-- Modelled from the spec: `Fernet(key).decrypt` — succeeds only on a token
produced under the same key (`InvalidToken`, i.e. `none`, otherwise). -/
def fernetDecrypt (key : List Nat) (token : List Nat) : Option (List Nat) :=
  match token with
  | [] => none
  | n :: rest =>
    if n = key.length ∧ rest.take key.length = key ∧ key.length + 16 ≤ rest.length then
      some (rest.drop (key.length + 16))
    else none

/-- Errors `CryptIOBroker` surfaces when opening a store in `'r'` mode:
`cryptography.fernet.InvalidToken` from `decrypt` (authentication failure) or
`UnicodeDecodeError` from `.decode('utf-8')`. -/
inductive OpenError where
  | authenticationFailed
  | decodeError
  deriving DecidableEq

/-- `CryptIOBroker('w', ...)` followed by writes and `close()`: generate the
salt, derive the key, encrypt the staged text and emit `salt || ciphertext`
(`CryptIOBroker.py` lines 66–69 and 71–78).  The salt and the Fernet nonce
are the two random inputs, passed explicitly. -/
def sealBroker (password : Str) (salt iv : List Nat) (contents : Str) : List Nat :=
  salt ++ fernetEncrypt (kdf password salt) iv (utf8Encode contents)

/-- `CryptIOBroker('r', ...)`: read the first 16 bytes as the salt, derive
the key from the supplied passphrase and that salt, decrypt the remainder and
decode it as UTF-8 (`CryptIOBroker.py` lines 59–65). -/
def openBroker (password : Str) (blob : List Nat) : Except OpenError Str :=
  let salt := blob.take 16
  match fernetDecrypt (kdf password salt) (blob.drop 16) with
  | none => .error .authenticationFailed
  | some bs =>
    match utf8Decode bs with
    | none => .error .decodeError
    | some s => .ok s

/-- The state `secure.py`'s broker builds in its constructor: the hard-coded
salt `b'abcdabcdabcdabcd'` and the key derived from it (`secure.py`
lines 29–41). -/
structure SecureBroker where
  salt : List Nat
  engineKey : List Nat

/-- `secure.py` `CryptIOBroker.__init__`: the salt is the fixed literal, the
engine key is derived from the passphrase and that fixed salt. -/
def secureBrokerInit (password : Str) : SecureBroker :=
  { salt := strCodes "abcdabcdabcdabcd"
    engineKey := kdf password (strCodes "abcdabcdabcdabcd") }

/-- `secure.py` write path (`close()` in `'w'` mode): only the ciphertext is
written, under the fixed-salt key. -/
def secureSeal (password : Str) (iv : List Nat) (contents : Str) : List Nat :=
  fernetEncrypt (secureBrokerInit password).engineKey iv (utf8Encode contents)

/-- The successive on-disk contents of the database file while
`CryptIOBroker.close()` runs in `'w'` mode: the prior blob; the empty file
after `open(filename, mode='wb')` truncates it; after `write(self._salt)`;
after `write(bindata)` (`CryptIOBroker.py` lines 71–78). -/
def persistStates (old salt cipher : List Nat) : List (List Nat) :=
  [old, [], salt, salt ++ cipher]

/-! ## CSV record table

`pass.py` reads the decrypted payload with `csv.DictReader(broker,
delimiter=',', quoting=csv.QUOTE_MINIMAL)` and writes it back with
`csv.DictWriter(broker, _SCHEMA, restval=None, delimiter=',',
quoting=csv.QUOTE_MINIMAL)`.  The `csv` module is a library outside this
repository; the definitions below are a faithful executable translation of
its default-dialect reader automaton and minimal-quoting writer (delimiter
`,` = 44, quote `"` = 34, line terminator `\r\n` = 13, 10; doubled quotes;
non-strict mode). -/
/-- Reader states, after `_csv.c`: start of record, start of field, in an
unquoted field, in a quoted field, just after a quote inside a quoted field,
and eating the `\r\n` record terminator. -/
inductive CsvMode where
  | sr
  | sf
  | inF
  | qF
  | qQ
  | cr
  deriving DecidableEq

/-- The `csv.reader` automaton over the raw character stream.  `cur` is the
field being accumulated, `fs` the fields of the current record, `rows` the
completed records.  `error` models `_csv.Error` (a stray `\r` not followed
by `\n`); end of data inside a quoted field saves the field as non-strict
Python does. -/
def runP : List Nat → CsvMode → Str → List Str → List (List Str) →
    Except Unit (List (List Str))
  | [], .sr, _, _, rows => .ok rows
  | [], .cr, _, _, rows => .ok rows
  | [], .sf, _, fs, rows => .ok (rows ++ [fs ++ [[]]])
  | [], .inF, cur, fs, rows => .ok (rows ++ [fs ++ [cur]])
  | [], .qF, cur, fs, rows => .ok (rows ++ [fs ++ [cur]])
  | [], .qQ, cur, fs, rows => .ok (rows ++ [fs ++ [cur]])
  | c :: cs, .sr, _, _, rows =>
    if c = 10 then runP cs .sr [] [] (rows ++ [[]])
    else if c = 13 then runP cs .cr [] [] (rows ++ [[]])
    else if c = 34 then runP cs .qF [] [] rows
    else if c = 44 then runP cs .sf [] [[]] rows
    else runP cs .inF [c] [] rows
  | c :: cs, .sf, _, fs, rows =>
    if c = 10 then runP cs .sr [] [] (rows ++ [fs ++ [[]]])
    else if c = 13 then runP cs .cr [] [] (rows ++ [fs ++ [[]]])
    else if c = 34 then runP cs .qF [] fs rows
    else if c = 44 then runP cs .sf [] (fs ++ [[]]) rows
    else runP cs .inF [c] fs rows
  | c :: cs, .inF, cur, fs, rows =>
    if c = 10 then runP cs .sr [] [] (rows ++ [fs ++ [cur]])
    else if c = 13 then runP cs .cr [] [] (rows ++ [fs ++ [cur]])
    else if c = 44 then runP cs .sf [] (fs ++ [cur]) rows
    else runP cs .inF (cur ++ [c]) fs rows
  | c :: cs, .qF, cur, fs, rows =>
    if c = 34 then runP cs .qQ cur fs rows
    else runP cs .qF (cur ++ [c]) fs rows
  | c :: cs, .qQ, cur, fs, rows =>
    if c = 34 then runP cs .qF (cur ++ [34]) fs rows
    else if c = 44 then runP cs .sf [] (fs ++ [cur]) rows
    else if c = 10 then runP cs .sr [] [] (rows ++ [fs ++ [cur]])
    else if c = 13 then runP cs .cr [] [] (rows ++ [fs ++ [cur]])
    else runP cs .inF (cur ++ [c]) fs rows
  | c :: cs, .cr, _, _, rows =>
    if c = 10 then runP cs .sr [] [] rows
    else if c = 13 then runP cs .cr [] [] rows
    else .error ()

/-- Parse a whole payload into records of fields. -/
def parseCSV (payload : Str) : Except Unit (List (List Str)) :=
  runP payload .sr [] [] []

/-- `QUOTE_MINIMAL`: a field is quoted iff it contains the delimiter, the
quote character, or a character of the line terminator `\r\n`. -/
def needsQuote (f : Str) : Bool :=
  f.any (fun c => c == 44 || c == 34 || c == 10 || c == 13)

/-- Double every quote character (the writer's `doublequote` escaping). -/
def escQuotes : Str → Str
  | [] => []
  | c :: cs => if c = 34 then 34 :: 34 :: escQuotes cs else c :: escQuotes cs

/-- Render one field under minimal quoting. -/
def renderField (f : Str) : Str :=
  if needsQuote f then 34 :: (escQuotes f ++ [34]) else f

/-- Comma-join rendered fields. -/
def joinComma : List Str → Str
  | [] => []
  | f :: fs => f ++ (if fs.isEmpty then [] else 44 :: joinComma fs)

/-- Render one record: comma-joined minimally quoted fields plus `\r\n`.
A record consisting of one empty field is written `""` by the C writer (so
that the line is not empty). -/
def renderRow (cells : List Str) : Str :=
  if cells = [[]] then [34, 34, 13, 10]
  else joinComma (cells.map renderField) ++ [13, 10]

/-- The fixed 9-column schema `_SCHEMA` of `pass.py`. -/
def schema : List Str :=
  ["ORGANIZATION", "URL", "USERID", "PASSWD", "OTHERID1", "OTHERID2", "DATE",
   "KIND", "NOTES"].map strCodes

/-- A row as `csv.DictReader` hands it to `load_database`: one optional value
per schema column (`none` is the `restval=None` padding of a short row), and
the values beyond the 9 columns that the reader files under its `restkey`
(empty when the row is not long). -/
structure PRecord where
  fields : List (Option Str)
  extra : List Str
  deriving DecidableEq

/-- `dict(zip(fieldnames, row))` plus restval padding and restkey overflow. -/
def mkRecord (row : List Str) : PRecord :=
  { fields := (List.range 9).map (fun i => row[i]?)
    extra := row.drop 9 }

/-- Failures of `load_database`: a `_csv.Error` from the reader, or the
`assert(reader.fieldnames == _SCHEMA)` failing. -/
inductive LoadError where
  | csvError
  | schemaMismatch
  deriving DecidableEq

/-- `PasswordManager.load_database` (lines 46–53): parse the decrypted
payload, check the header row against `_SCHEMA`, and collect the remaining
rows (the `DictReader` iterator skips blank rows). -/
def loadTable (payload : Str) : Except LoadError (List PRecord) :=
  match parseCSV payload with
  | .error _ => .error .csvError
  | .ok [] => .error .schemaMismatch
  | .ok (hdr :: rest) =>
    if hdr = schema then
      .ok ((rest.filter (fun r => !r.isEmpty)).map mkRecord)
    else .error .schemaMismatch

/-- `csv.DictWriter` with `extrasaction='raise'` (the default) raises
`ValueError` when a row dict holds keys outside the field names — which is
exactly a record with a non-empty `extra`. -/
inductive SerializeError where
  | extraFields
  deriving DecidableEq

/-- The C writer renders the Python `None` value as the empty field. -/
def cellOfValue : Option Str → Str
  | some s => s
  | none => []

/-- `DictWriter.writerow` for one record. -/
def serializeRecord (r : PRecord) : Except SerializeError Str :=
  if r.extra.isEmpty then .ok (renderRow (r.fields.map cellOfValue))
  else .error .extraFields

/-- Body rows of `write_updated_table`'s output. -/
def serializeRows : List PRecord → Except SerializeError Str
  | [] => .ok []
  | r :: rs =>
    match serializeRecord r with
    | .error e => .error e
    | .ok s =>
      match serializeRows rs with
      | .error e => .error e
      | .ok t => .ok (s ++ t)

/-- `PasswordManager.write_updated_table` (lines 88–97): header row first,
then every record, all through the minimal-quoting writer. -/
def serializeTable (recs : List PRecord) : Except SerializeError Str :=
  match serializeRows recs with
  | .error e => .error e
  | .ok body => .ok (renderRow schema ++ body)

/-- A record whose row had exactly the 9 schema columns: no restval padding,
no restkey overflow. -/
def CompleteRecord (r : PRecord) : Prop :=
  r.fields.length = 9 ∧ (∀ v ∈ r.fields, v.isSome) ∧ r.extra = []

instance (r : PRecord) : Decidable (CompleteRecord r) := by
  unfold CompleteRecord
  infer_instance

/-- Concatenation of rendered records, as the writer emits them. -/
def renderRows : List (List Str) → Str
  | [] => []
  | r :: rs => renderRow r ++ renderRows rs

/-! ## Regex lookup

`PasswordManager.extract_record` compiles the supplied organization name with
`re.compile(org_name, re.IGNORECASE)` and runs `pattern.search` over each
record's `ORGANIZATION` value.  The `re` module is a library outside this
repository; below is an executable model of the subset of its syntax the
program's inputs exercise (literals, `.`, `|`, `*`, `+`, `?`, groups and
escaped punctuation; character classes, braces, anchors and extension groups
are conservatively rejected), with Brzozowski-derivative matching and
ASCII case folding for `IGNORECASE`. -/
/-- Regular-expression abstract syntax. -/
inductive Regex where
  | fail
  | eps
  | chr (c : Nat)
  | dot
  | alt (r s : Regex)
  | cat (r s : Regex)
  | star (r : Regex)
  deriving DecidableEq

/-- Does the expression accept the empty string? -/
def nullable : Regex → Bool
  | .fail => false
  | .eps => true
  | .chr _ => false
  | .dot => false
  | .alt r s => nullable r || nullable s
  | .cat r s => nullable r && nullable s
  | .star _ => true

/-- Brzozowski derivative with respect to one character; `.` does not match
a newline (no `DOTALL`). -/
def deriv : Regex → Nat → Regex
  | .fail, _ => .fail
  | .eps, _ => .fail
  | .chr c, a => if a = c then .eps else .fail
  | .dot, a => if a = 10 then .fail else .eps
  | .alt r s, a => .alt (deriv r a) (deriv s a)
  | .cat r s, a =>
    if nullable r then .alt (.cat (deriv r a) s) (deriv s a) else .cat (deriv r a) s
  | .star r, a => .cat (deriv r a) (.star r)

/-- Does some (possibly empty) initial segment of the input match? -/
def matchesFrom : Regex → List Nat → Bool
  | r, [] => nullable r
  | r, c :: cs => nullable r || matchesFrom (deriv r c) cs

/-- `pattern.search`: does the expression match starting at some position? -/
def reSearch (r : Regex) : List Nat → Bool
  | [] => nullable r
  | c :: cs => matchesFrom r (c :: cs) || reSearch r cs

/-- ASCII lowering, the model of `re.IGNORECASE` case folding. -/
def toLowerCh (c : Nat) : Nat := if 65 ≤ c ∧ c ≤ 90 then c + 32 else c

/-- Lower every literal character of a parsed pattern. -/
def lowerRegex : Regex → Regex
  | .fail => .fail
  | .eps => .eps
  | .chr c => .chr (toLowerCh c)
  | .dot => .dot
  | .alt r s => .alt (lowerRegex r) (lowerRegex s)
  | .cat r s => .cat (lowerRegex r) (lowerRegex s)
  | .star r => .star (lowerRegex r)

/-- Reject an immediately repeated quantifier. -/
def quantGuard (r : Regex) (rest : List Nat) : Except Unit (Regex × List Nat) :=
  match rest with
  | c :: _ => if c = 42 ∨ c = 43 ∨ c = 63 then .error () else .ok (r, rest)
  | [] => .ok (r, rest)

mutual

/-- Alternation level of the pattern grammar (`a|b`); fuel bounds recursion. -/
def parseAlt : Nat → List Nat → Except Unit (Regex × List Nat)
  | 0, _ => .error ()
  | fuel + 1, s =>
    match parseCat fuel s with
    | .error _ => .error ()
    | .ok (r, rest) =>
      match rest with
      | 124 :: rest2 =>
        match parseAlt fuel rest2 with
        | .error _ => .error ()
        | .ok (r2, rest3) => .ok (.alt r r2, rest3)
      | _ => .ok (r, rest)

/-- Concatenation level: a run of pieces up to `|`, `)` or the end. -/
def parseCat : Nat → List Nat → Except Unit (Regex × List Nat)
  | 0, _ => .error ()
  | fuel + 1, s =>
    match s with
    | [] => .ok (.eps, [])
    | 41 :: _ => .ok (.eps, s)
    | 124 :: _ => .ok (.eps, s)
    | _ =>
      match parsePiece fuel s with
      | .error _ => .error ()
      | .ok (r, rest) =>
        match parseCat fuel rest with
        | .error _ => .error ()
        | .ok (r2, rest2) => .ok (.cat r r2, rest2)

/-- A piece: an atom with at most one quantifier (`a**` is a `multiple
repeat` error, as in Python). -/
def parsePiece : Nat → List Nat → Except Unit (Regex × List Nat)
  | 0, _ => .error ()
  | fuel + 1, s =>
    match parseAtom fuel s with
    | .error _ => .error ()
    | .ok (r, rest) =>
      match rest with
      | 42 :: rest2 => quantGuard (.star r) rest2
      | 43 :: rest2 => quantGuard (.cat r (.star r)) rest2
      | 63 :: rest2 => quantGuard (.alt .eps r) rest2
      | _ => .ok (r, rest)

/-- An atom: a group, `.`, an escaped punctuation character, or a literal;
quantifiers with nothing to repeat, stray `)`,
classes/braces/anchors/extensions are errors. -/
def parseAtom : Nat → List Nat → Except Unit (Regex × List Nat)
  | 0, _ => .error ()
  | fuel + 1, s =>
    match s with
    | [] => .error ()
    | 40 :: rest =>
      match parseAlt fuel rest with
      | .ok (r, 41 :: rest2) => .ok (r, rest2)
      | _ => .error ()
    | 41 :: _ => .error ()
    | 42 :: _ => .error ()
    | 43 :: _ => .error ()
    | 63 :: _ => .error ()
    | 46 :: rest => .ok (.dot, rest)
    | 91 :: _ => .error ()
    | 123 :: _ => .error ()
    | 94 :: _ => .error ()
    | 36 :: _ => .error ()
    | 92 :: c :: rest =>
      if (65 ≤ c ∧ c ≤ 90) ∨ (97 ≤ c ∧ c ≤ 122) ∨ (48 ≤ c ∧ c ≤ 57) then .error ()
      else .ok (.chr c, rest)
    | [92] => .error ()
    | c :: rest => .ok (.chr c, rest)

end

/-- `re.compile(org_name, re.IGNORECASE)`: parse the whole pattern (leftover
input means an unbalanced `)`), fold literals to lower case. -/
def reCompile (pat : Str) : Except Unit Regex :=
  match parseAlt (8 * pat.length + 8) pat with
  | .error _ => .error ()
  | .ok (r, []) => .ok (lowerRegex r)
  | .ok (_, _ :: _) => .error ()

/-- `row['ORGANIZATION']`: the record's first schema column. -/
def orgOf (r : PRecord) : Option Str := r.fields.getD 0 none

/-- Failures of `extract_record`: `re.error` from `re.compile`, or the
`TypeError` of searching a `None` organization value. -/
inductive LookupError where
  | badPattern
  | typeError
  deriving DecidableEq

/-- Search one record's organization value (case-insensitively). -/
def searchOrg (r : Regex) (rec : PRecord) : Bool :=
  match orgOf rec with
  | some s => reSearch r (s.map toLowerCh)
  | none => false

/-- The indices, in table order, whose record matches the compiled
pattern — the `org_list` the loop of `extract_record` builds. -/
def matchIndices (r : Regex) (table : List PRecord) : List Nat :=
  (List.range table.length).filter (fun i =>
    match table[i]? with
    | some rec => searchOrg r rec
    | none => false)

/-- `PasswordManager.extract_record` (lines 99–108): compile the name as a
regex, then collect, in table order, the indices whose `ORGANIZATION`
matches. -/
def extractRecord (table : List PRecord) (orgName : Str) :
    Except LookupError (List Nat) :=
  match reCompile orgName with
  | .error _ => .error .badPattern
  | .ok r =>
    if table.all (fun rec => (orgOf rec).isSome) then .ok (matchIndices r table)
    else .error .typeError

/-- The placeholder record `update_matching_orgs` appends on a miss
(lines 143–150): every field is the literal `'None'` except `ORGANIZATION`
(the supplied name) and `DATE` (today, ISO format). -/
def newRecord (orgName today : Str) : PRecord :=
  { fields := [some orgName, some (strCodes "None"), some (strCodes "None"),
      some (strCodes "None"), some (strCodes "None"), some (strCodes "None"),
      some today, some (strCodes "None"), some (strCodes "None")]
    extra := [] }

/-- `PasswordManager.update_matching_orgs` (lines 139–153), minus the
interactive per-record editing: look the name up; on no match append the
placeholder record and return its index, otherwise return the matches. -/
def upsert (table : List PRecord) (orgName today : Str) :
    Except LookupError (List Nat × List PRecord) :=
  match extractRecord table orgName with
  | .error e => .error e
  | .ok [] => .ok ([table.length], table ++ [newRecord orgName today])
  | .ok idxs => .ok (idxs, table)

/-- One field update inside `_ask_user_and_update_record` (lines 132–134):
`if (len(value)): row[key] = value` — an empty reply keeps the old value. -/
def updateField (r : PRecord) (k : Nat) (value : Str) : PRecord :=
  if value.length = 0 then r
  else { r with fields := r.fields.set k (some value) }

/-- The table after updating field `k` of record `i`. -/
def setFieldTable (table : List PRecord) (i k : Nat) (value : Str) :
    List PRecord :=
  table.set i (updateField (table.getD i ⟨[], []⟩) k value)

/-- A string is a literal substring of another. -/
def isSubstr (needle hay : Str) : Bool :=
  hay.tails.any (fun t => needle.isPrefixOf t)

/-- A prior on-disk blob for the persist trace. -/
def demoOld : List Nat := strCodes "OLDGENERATION"

/-- A concrete salt for the persist trace. -/
def demoSalt : List Nat := strCodes "0123456789abcdef"

/-- The ciphertext `close()` writes when persisting the empty table (header
row only), under the demo salt and a concrete nonce. -/
def demoCipher : List Nat :=
  fernetEncrypt (kdf (strCodes "pw") demoSalt) (strCodes "fedcba9876543210")
    (utf8Encode (renderRow schema))

/-- The decrypted payload of a store holding one short row: the header and a
row with only the `ORGANIZATION` column. -/
def cePayload : Str :=
  strCodes "ORGANIZATION,URL,USERID,PASSWD,OTHERID1,OTHERID2,DATE,KIND,NOTES\r\nAcme\r\n"

/-- The record `DictReader` produces for that row: the eight missing columns
are the `restval` `None`. -/
def ceShortRec : PRecord :=
  ⟨[some (strCodes "Acme"), none, none, none, none, none, none, none, none], []⟩

/-- The record obtained after reserializing: the `None` columns have become
empty strings. -/
def ceBlankRec : PRecord :=
  ⟨[some (strCodes "Acme"), some [], some [], some [], some [], some [], some [], some [],
    some []], []⟩

/-- The writer's output for the short record. -/
def ceReserialized : Str :=
  strCodes "ORGANIZATION,URL,USERID,PASSWD,OTHERID1,OTHERID2,DATE,KIND,NOTES\r\nAcme,,,,,,,,\r\n"

/-- A payload whose header has all 9 field names but with the first two
swapped. -/
def c7Payload : Str :=
  strCodes "URL,ORGANIZATION,USERID,PASSWD,OTHERID1,OTHERID2,DATE,KIND,NOTES\r\nAcme\r\n"

/-- The parsed header of that payload. -/
def c7Hdr : List Str :=
  ["URL", "ORGANIZATION", "USERID", "PASSWD", "OTHERID1", "OTHERID2", "DATE",
   "KIND", "NOTES"].map strCodes

/-- The organization name the C8 counterexample uses: a valid regular
expression that does not match its own text. -/
def abName : Str := strCodes "a+b"

/-- A date value for upserts. -/
def d0 : Str := strCodes "2026-10-12"

theorem u8run_encode (s : Str) (h : ∀ c ∈ s, ValidCp c) (out : Str) (rest : List Nat) :
    u8run (utf8Encode s ++ rest) 0 0 0 out = u8run rest 0 0 0 (out ++ s) := by
  induction s generalizing out with
  | nil => simp [utf8Encode]
  | cons c cs ih =>
    have hc : ValidCp c := h c (by simp)
    have hcs : ∀ d ∈ cs, ValidCp d := fun d hd => h d (by simp [hd])
    obtain ⟨hlt, hsur⟩ := hc
    rw [utf8Encode, List.append_assoc]
    by_cases h1 : c < 0x80
    · rw [utf8EncodeChar, if_pos h1]
      show u8run (c :: (utf8Encode cs ++ rest)) 0 0 0 out = _
      rw [u8run, if_pos rfl, if_pos h1, ih hcs, List.append_assoc]
      rfl
    · by_cases h2 : c < 0x800
      · have hq := Nat.div_add_mod c 64
        have hr : c % 64 < 64 := Nat.mod_lt _ (by omega)
        rw [utf8EncodeChar, if_neg h1, if_pos h2]
        show u8run ((0xC0 + c / 64) :: (0x80 + c % 64) :: (utf8Encode cs ++ rest)) 0 0 0 out
          = _
        rw [u8run, if_pos rfl, if_neg (by omega), if_neg (by omega), if_pos (by omega)]
        rw [u8run, if_neg (by omega), if_pos (by constructor <;> omega), if_pos rfl,
          if_pos (by refine ⟨by omega, by omega, ?_⟩; omega)]
        have hval : (0xC0 + c / 64 - 0xC0) * 64 + (0x80 + c % 64 - 0x80) = c := by omega
        rw [hval, ih hcs, List.append_assoc]
        rfl
      · by_cases h3 : c < 0x10000
        · have hq1 := Nat.div_add_mod c 4096
          have hq2 := Nat.div_add_mod (c / 64) 64
          have hdd : c / 64 / 64 = c / 4096 := by rw [Nat.div_div_eq_div_mul]
          have hr2 : c / 64 % 64 < 64 := Nat.mod_lt _ (by omega)
          have hr3 : c % 64 < 64 := Nat.mod_lt _ (by omega)
          have hq3 := Nat.div_add_mod c 64
          rw [hdd] at hq2
          rw [utf8EncodeChar, if_neg h1, if_neg h2, if_pos h3]
          show u8run ((0xE0 + c / 4096) :: (0x80 + c / 64 % 64) :: (0x80 + c % 64)
            :: (utf8Encode cs ++ rest)) 0 0 0 out = _
          rw [u8run, if_pos rfl, if_neg (by omega), if_neg (by omega), if_neg (by omega),
            if_pos (by omega)]
          rw [u8run, if_neg (by omega), if_pos (by constructor <;> omega), if_neg (by omega)]
          have hv1 : (0xE0 + c / 4096 - 0xE0) * 64 + (0x80 + c / 64 % 64 - 0x80) = c / 64 := by
            omega
          rw [hv1]
          rw [u8run, if_neg (by omega), if_pos (by constructor <;> omega), if_pos rfl,
            if_pos (by refine ⟨by omega, by omega, ?_⟩; omega)]
          have hv2 : c / 64 * 64 + (0x80 + c % 64 - 0x80) = c := by omega
          rw [hv2, ih hcs, List.append_assoc]
          rfl
        · have h4 : 0x10000 ≤ c := by omega
          have hq1 := Nat.div_add_mod c 262144
          have hq2 := Nat.div_add_mod (c / 4096) 64
          have hq3 := Nat.div_add_mod (c / 64) 64
          have hq4 := Nat.div_add_mod c 64
          have hq5 := Nat.div_add_mod c 4096
          have hdd1 : c / 4096 / 64 = c / 262144 := by rw [Nat.div_div_eq_div_mul]
          have hdd2 : c / 64 / 64 = c / 4096 := by rw [Nat.div_div_eq_div_mul]
          rw [hdd1] at hq2
          rw [hdd2] at hq3
          have hr1 : c / 4096 % 64 < 64 := Nat.mod_lt _ (by omega)
          have hr2 : c / 64 % 64 < 64 := Nat.mod_lt _ (by omega)
          have hr3 : c % 64 < 64 := Nat.mod_lt _ (by omega)
          rw [utf8EncodeChar, if_neg h1, if_neg h2, if_neg h3]
          show u8run ((0xF0 + c / 262144) :: (0x80 + c / 4096 % 64) :: (0x80 + c / 64 % 64)
            :: (0x80 + c % 64) :: (utf8Encode cs ++ rest)) 0 0 0 out = _
          rw [u8run, if_pos rfl, if_neg (by omega), if_neg (by omega), if_neg (by omega),
            if_neg (by omega), if_pos (by omega)]
          rw [u8run, if_neg (by omega), if_pos (by constructor <;> omega), if_neg (by omega)]
          have hv1 : (0xF0 + c / 262144 - 0xF0) * 64 + (0x80 + c / 4096 % 64 - 0x80)
              = c / 4096 := by omega
          rw [hv1]
          rw [u8run, if_neg (by omega), if_pos (by constructor <;> omega), if_neg (by omega)]
          have hv2 : c / 4096 * 64 + (0x80 + c / 64 % 64 - 0x80) = c / 64 := by omega
          rw [hv2]
          rw [u8run, if_neg (by omega), if_pos (by constructor <;> omega), if_pos rfl,
            if_pos (by refine ⟨by omega, by omega, ?_⟩; omega)]
          have hv3 : c / 64 * 64 + (0x80 + c % 64 - 0x80) = c := by omega
          rw [hv3, ih hcs, List.append_assoc]
          rfl

/-- A string of valid code points survives the UTF-8 round trip. -/
theorem utf8Decode_utf8Encode (s : Str) (h : ∀ c ∈ s, ValidCp c) :
    utf8Decode (utf8Encode s) = some s := by
  have := u8run_encode s h [] []
  rw [List.append_nil] at this
  rw [utf8Decode, this]
  rfl

/-- On valid strings the UTF-8 encoder is injective. -/
theorem utf8Encode_injective (s t : Str) (hs : ∀ c ∈ s, ValidCp c)
    (ht : ∀ c ∈ t, ValidCp c) (h : utf8Encode s = utf8Encode t) : s = t := by
  have h1 := utf8Decode_utf8Encode s hs
  have h2 := utf8Decode_utf8Encode t ht
  rw [h, h2] at h1
  exact (Option.some_injective _ h1).symm

theorem fernetDecrypt_encrypt (key iv pt : List Nat) (hiv : iv.length = 16) :
    fernetDecrypt key (fernetEncrypt key iv pt) = some pt := by
  have htake : (key ++ iv ++ pt).take key.length = key := by
    rw [List.append_assoc]
    simp
  have hdroplen : (key ++ iv).length = key.length + 16 := by simp [hiv]
  have hdrop : (key ++ iv ++ pt).drop (key.length + 16) = pt := by
    rw [← hdroplen]
    exact List.drop_left (key ++ iv) pt
  have hlen : key.length + 16 ≤ (key ++ iv ++ pt).length := by simp [hiv]
  simp [fernetEncrypt, fernetDecrypt, htake, hdrop, hlen]
  refine ⟨by omega, ?_⟩
  rw [← hiv]
  exact List.drop_left iv pt

theorem fernetDecrypt_wrong_key (key bad iv pt : List Nat) (h : bad ≠ key) :
    fernetDecrypt bad (fernetEncrypt key iv pt) = none := by
  simp only [fernetEncrypt, fernetDecrypt]
  rw [if_neg]
  rintro ⟨h1, h2, -⟩
  apply h
  rw [← h1] at h2
  have htake : (key ++ iv ++ pt).take key.length = key := by
    rw [List.append_assoc]
    simp
  rw [htake] at h2
  exact h2.symm

/-- Different passphrases derive different keys for any fixed salt. -/
theorem kdf_injective (p1 p2 : Str) (salt : List Nat) (h1 : ∀ c ∈ p1, ValidCp c)
    (h2 : ∀ c ∈ p2, ValidCp c) (hne : p1 ≠ p2) : kdf p1 salt ≠ kdf p2 salt := by
  intro h
  apply hne
  have ht : utf8Encode p1 ++ salt = utf8Encode p2 ++ salt := by
    have := congrArg List.tail h
    simpa [kdf] using this
  have he : utf8Encode p1 = utf8Encode p2 := by
    have hlen : (utf8Encode p1).length = (utf8Encode p2).length := by
      have := congrArg List.length ht
      simp at this
      omega
    have := congrArg (List.take (utf8Encode p1).length) ht
    rwa [List.take_left, hlen, List.take_left] at this
  exact utf8Encode_injective _ _ h1 h2 he

theorem not_needsQuote_mem (f : Str) (hf : needsQuote f = false) :
    ∀ c ∈ f, c ≠ 10 ∧ c ≠ 13 ∧ c ≠ 34 ∧ c ≠ 44 := by
  intro c hc
  simp only [needsQuote, List.any_eq_false] at hf
  have h2 := hf c hc
  simp only [Bool.or_eq_true, beq_iff_eq] at h2
  push_neg at h2
  obtain ⟨⟨⟨h44, h34⟩, h10⟩, h13⟩ := h2
  exact ⟨h10, h13, h34, h44⟩

theorem runP_inF_plain (g : Str) (hg : ∀ c ∈ g, c ≠ 10 ∧ c ≠ 13 ∧ c ≠ 44)
    (tail : List Nat) (cur : Str) (fs : List Str) (rows : List (List Str)) :
    runP (g ++ tail) .inF cur fs rows = runP tail .inF (cur ++ g) fs rows := by
  induction g generalizing cur with
  | nil => simp
  | cons c g ih =>
    obtain ⟨h10, h13, h44⟩ := hg c (by simp)
    rw [List.cons_append, runP, if_neg h10, if_neg h13, if_neg h44,
      ih (fun d hd => hg d (by simp [hd]))]
    simp

theorem runP_qF_esc (f : Str) (tail : List Nat) (cur : Str) (fs : List Str)
    (rows : List (List Str)) :
    runP (escQuotes f ++ tail) .qF cur fs rows = runP tail .qF (cur ++ f) fs rows := by
  induction f generalizing cur with
  | nil => simp [escQuotes]
  | cons c f ih =>
    by_cases h34 : c = 34
    · subst h34
      rw [escQuotes, if_pos rfl, List.cons_append, List.cons_append, runP, if_pos rfl,
        runP, if_pos rfl, ih]
      simp
    · rw [escQuotes, if_neg h34, List.cons_append, runP, if_neg h34, ih]
      simp

theorem runP_field_comma (f : Str) (tail : List Nat) (fs : List Str)
    (rows : List (List Str)) :
    runP (renderField f ++ (44 :: tail)) .sf [] fs rows
      = runP tail .sf [] (fs ++ [f]) rows := by
  by_cases hq : needsQuote f = true
  · rw [renderField, if_pos hq, List.cons_append, runP, if_neg (by decide),
      if_neg (by decide), if_pos rfl, List.append_assoc]
    have e : [34] ++ (44 :: tail) = 34 :: 44 :: tail := rfl
    rw [e, runP_qF_esc]
    simp only [List.nil_append]
    rw [runP, if_pos rfl, runP, if_neg (by decide), if_pos rfl]
  · have hq' : needsQuote f = false := by simpa using hq
    rcases f with _ | ⟨c, f₂⟩
    · rw [renderField, if_neg (by simp [hq']), List.nil_append, runP, if_neg (by decide),
        if_neg (by decide), if_neg (by decide), if_pos rfl]
    · obtain ⟨h10, h13, h34, h44⟩ := not_needsQuote_mem _ hq' c (by simp)
      have hmem : ∀ d ∈ f₂, d ≠ 10 ∧ d ≠ 13 ∧ d ≠ 44 := by
        intro d hd
        obtain ⟨a, b, -, d44⟩ := not_needsQuote_mem _ hq' d (by simp [hd])
        exact ⟨a, b, d44⟩
      rw [renderField, if_neg (by simp [hq']), List.cons_append, runP, if_neg h10,
        if_neg h13, if_neg h34, if_neg h44, runP_inF_plain f₂ hmem, runP,
        if_neg (by decide), if_neg (by decide), if_pos rfl]
      rfl

theorem runP_field_crlf (f : Str) (tail : List Nat) (fs : List Str)
    (rows : List (List Str)) :
    runP (renderField f ++ (13 :: 10 :: tail)) .sf [] fs rows
      = runP tail .sr [] [] (rows ++ [fs ++ [f]]) := by
  by_cases hq : needsQuote f = true
  · rw [renderField, if_pos hq, List.cons_append, runP, if_neg (by decide),
      if_neg (by decide), if_pos rfl, List.append_assoc]
    have e : [34] ++ (13 :: 10 :: tail) = 34 :: 13 :: 10 :: tail := rfl
    rw [e, runP_qF_esc]
    simp only [List.nil_append]
    rw [runP, if_pos rfl, runP, if_neg (by decide), if_neg (by decide), if_neg (by decide),
      if_pos rfl, runP, if_pos rfl]
  · have hq' : needsQuote f = false := by simpa using hq
    rcases f with _ | ⟨c, f₂⟩
    · rw [renderField, if_neg (by simp [hq']), List.nil_append, runP, if_neg (by decide),
        if_pos rfl, runP, if_pos rfl]
    · obtain ⟨h10, h13, h34, h44⟩ := not_needsQuote_mem _ hq' c (by simp)
      have hmem : ∀ d ∈ f₂, d ≠ 10 ∧ d ≠ 13 ∧ d ≠ 44 := by
        intro d hd
        obtain ⟨a, b, -, d44⟩ := not_needsQuote_mem _ hq' d (by simp [hd])
        exact ⟨a, b, d44⟩
      rw [renderField, if_neg (by simp [hq']), List.cons_append, runP, if_neg h10,
        if_neg h13, if_neg h34, if_neg h44, runP_inF_plain f₂ hmem, runP,
        if_neg (by decide), if_pos rfl, runP, if_pos rfl]
      rfl

theorem runP_cells (cells : List Str) (h : cells ≠ []) (tail : List Nat) (fs : List Str)
    (rows : List (List Str)) :
    runP (joinComma (cells.map renderField) ++ (13 :: 10 :: tail)) .sf [] fs rows
      = runP tail .sr [] [] (rows ++ [fs ++ cells]) := by
  induction cells generalizing fs with
  | nil => exact absurd rfl h
  | cons f rest ih =>
    rw [List.map_cons, joinComma]
    by_cases hrest : rest = []
    · subst hrest
      simp only [List.map_nil, List.isEmpty_nil, if_pos, List.append_nil]
      exact runP_field_crlf f tail fs rows
    · have hne : (rest.map renderField).isEmpty = false := by
        rcases rest with _ | ⟨g, gs⟩
        · exact absurd rfl hrest
        · simp
      rw [hne]
      simp only [Bool.false_eq_true, if_false]
      rw [List.append_assoc, List.cons_append, runP_field_comma, ih hrest (fs ++ [f])]
      simp

theorem runP_start (c : Nat) (cs : List Nat) (rows : List (List Str)) (h10 : c ≠ 10)
    (h13 : c ≠ 13) :
    runP (c :: cs) .sr [] [] rows = runP (c :: cs) .sf [] [] rows := by
  by_cases h34 : c = 34
  · subst h34
    rfl
  · by_cases h44 : c = 44
    · subst h44
      rfl
    · rw [runP, if_neg h10, if_neg h13, if_neg h34, if_neg h44]
      conv_rhs => rw [runP]
      rw [if_neg h10, if_neg h13, if_neg h34, if_neg h44]

theorem joinComma_head (f : Str) (rest : List Str) (hne : ¬(f = [] ∧ rest = [])) :
    ∃ c w, joinComma ((f :: rest).map renderField) = c :: w ∧ c ≠ 10 ∧ c ≠ 13 := by
  by_cases hq : needsQuote f = true
  · refine ⟨34, escQuotes f ++ [34]
      ++ (if (rest.map renderField).isEmpty then []
          else 44 :: joinComma (rest.map renderField)), ?_, by decide, by decide⟩
    rw [List.map_cons, joinComma, renderField, if_pos hq]
    simp [List.append_assoc]
  · have hq' : needsQuote f = false := by simpa using hq
    rcases f with _ | ⟨c, f₂⟩
    · rcases rest with _ | ⟨g, rest'⟩
      · exact absurd ⟨rfl, rfl⟩ hne
      · refine ⟨44, joinComma ((g :: rest').map renderField), ?_, by decide, by decide⟩
        rw [List.map_cons, joinComma, renderField, if_neg (by simp [hq'])]
        simp
    · obtain ⟨h10, h13, -, -⟩ := not_needsQuote_mem _ hq' c (by simp)
      refine ⟨c, f₂ ++ (if (rest.map renderField).isEmpty then []
          else 44 :: joinComma (rest.map renderField)), ?_, h10, h13⟩
      rw [List.map_cons, joinComma, renderField, if_neg (by simp [hq'])]
      rfl

theorem runP_row (cells : List Str) (h : cells ≠ []) (tail : List Nat)
    (rows : List (List Str)) :
    runP (renderRow cells ++ tail) .sr [] [] rows
      = runP tail .sr [] [] (rows ++ [cells]) := by
  by_cases hone : cells = [[]]
  · subst hone
    rw [renderRow, if_pos rfl]
    rfl
  · rcases cells with _ | ⟨f, rest⟩
    · exact absurd rfl h
    rw [renderRow, if_neg hone]
    obtain ⟨c, w, hw, h10, h13⟩ := joinComma_head f rest (by
      rintro ⟨hf, hr⟩
      subst hf
      subst hr
      exact hone rfl)
    have e2 : [13, 10] ++ tail = 13 :: 10 :: tail := rfl
    rw [List.append_assoc, e2, hw, List.cons_append, runP_start c _ rows h10 h13,
      ← List.cons_append, ← hw, runP_cells (f :: rest) (by simp) tail [] rows]
    simp

theorem runP_rows (rws : List (List Str)) (h : ∀ r ∈ rws, r ≠ []) (tail : List Nat)
    (rowsAcc : List (List Str)) :
    runP (renderRows rws ++ tail) .sr [] [] rowsAcc
      = runP tail .sr [] [] (rowsAcc ++ rws) := by
  induction rws generalizing rowsAcc with
  | nil => simp [renderRows]
  | cons r rs ih =>
    rw [renderRows, List.append_assoc, runP_row r (h r (by simp)),
      ih (fun x hx => h x (by simp [hx]))]
    simp

/-- Parsing the writer's output recovers the header and every record. -/
theorem parseCSV_render (rws : List (List Str)) (h : ∀ r ∈ rws, r ≠ []) :
    parseCSV (renderRow schema ++ renderRows rws) = .ok (schema :: rws) := by
  have hs : renderRow schema ++ renderRows rws = renderRows (schema :: rws) ++ [] := by
    rw [renderRows, List.append_nil]
  rw [parseCSV, hs, runP_rows (schema :: rws) ?hne [] []]
  · rfl
  · intro r hr
    rcases List.mem_cons.mp hr with hr | hr
    · subst hr
      decide
    · exact h r hr

theorem serializeRows_complete (recs : List PRecord) (h : ∀ r ∈ recs, CompleteRecord r) :
    serializeRows recs
      = .ok (renderRows (recs.map (fun r => r.fields.map cellOfValue))) := by
  induction recs with
  | nil => rfl
  | cons r rs ih =>
    obtain ⟨-, -, hextra⟩ := h r (by simp)
    rw [serializeRows, serializeRecord, if_pos (by rw [hextra]; rfl),
      ih (fun x hx => h x (by simp [hx]))]
    rfl

theorem mkRecord_cells (r : PRecord) (h : CompleteRecord r) :
    mkRecord (r.fields.map cellOfValue) = r := by
  rcases r with ⟨fields, extra⟩
  obtain ⟨hlen, hsome, hextra⟩ := h
  dsimp only at hlen hsome hextra
  simp only [mkRecord, PRecord.mk.injEq]
  constructor
  · apply List.ext_getElem?
    intro i
    by_cases hi : i < 9
    · rw [List.getElem?_map]
      have hr : (List.range 9)[i]? = some i := by
        rw [List.getElem?_range hi]
      rw [hr]
      simp only [Option.map_some']
      rw [List.getElem?_map]
      have hif : i < fields.length := by simp_all
      rw [List.getElem?_eq_getElem hif]
      have := hsome fields[i] (List.getElem_mem hif)
      rcases hv : fields[i] with - | v
      · rw [hv] at this
        simp at this
      · simp [cellOfValue]
    · rw [List.getElem?_map]
      have hr : (List.range 9)[i]? = none := by
        rw [List.getElem?_eq_none]
        simpa using Nat.le_of_not_lt hi
      rw [hr]
      have : fields[i]? = none := by
        rw [List.getElem?_eq_none]
        omega
      rw [this]
      rfl
  · rw [hextra]
    apply List.drop_eq_nil_of_le
    simp [hlen]

/-- Loading the serialization of a table of complete records gives the table
back. -/
theorem loadTable_serializeTable (recs : List PRecord) (p : Str)
    (h : ∀ r ∈ recs, CompleteRecord r) (hs : serializeTable recs = .ok p) :
    loadTable p = .ok recs := by
  have hcells : ∀ r ∈ recs.map (fun r => r.fields.map cellOfValue), r ≠ [] := by
    intro x hx
    simp only [List.mem_map] at hx
    obtain ⟨r, hr, hxe⟩ := hx
    obtain ⟨hlen, -, -⟩ := h r hr
    subst hxe
    intro hnil
    rw [List.map_eq_nil_iff] at hnil
    rw [hnil] at hlen
    simp at hlen
  rw [serializeTable, serializeRows_complete recs h] at hs
  have hp : p = renderRow schema ++ renderRows (recs.map (fun r => r.fields.map cellOfValue)) := by
    cases hs
    rfl
  subst hp
  rw [loadTable, parseCSV_render _ hcells]
  show (if schema = schema then
      Except.ok ((((recs.map (fun r => r.fields.map cellOfValue)).filter
        (fun r => !r.isEmpty)).map mkRecord))
    else Except.error LoadError.schemaMismatch) = Except.ok recs
  rw [if_pos rfl]
  congr 1
  rw [List.filter_eq_self.mpr]
  · rw [List.map_map]
    have : ∀ r ∈ recs, (mkRecord ∘ fun r => r.fields.map cellOfValue) r = id r := by
      intro r hr
      exact mkRecord_cells r (h r hr)
    rw [List.map_congr_left this, List.map_id]
  · intro a ha
    have := hcells a ha
    simp only [Bool.not_eq_eq_eq_not, Bool.not_true, List.isEmpty_eq_false]
    exact this

theorem set_getD_self {α : Type} (l : List α) (i : Nat) (d : α) (hi : i < l.length) :
    l.set i (l.getD i d) = l := by
  induction l generalizing i with
  | nil => simp at hi
  | cons a l ih =>
    cases i with
    | zero => rfl
    | succ j =>
      simp only [List.getD_cons_succ, List.set_cons_succ, List.cons.injEq, true_and]
      exact ih j (by simpa using hi)

/-- Evaluating `extract_record` once the pattern compiled. -/
theorem extractRecord_ok (table : List PRecord) (orgName : Str) (r : Regex)
    (hc : reCompile orgName = .ok r) :
    extractRecord table orgName
      = if table.all (fun rec => (orgOf rec).isSome) then .ok (matchIndices r table)
        else .error .typeError := by
  rw [extractRecord, hc]

theorem matchIndices_append_one (r : Regex) (t : List PRecord) (rec : PRecord) :
    matchIndices r (t ++ [rec])
      = matchIndices r t ++ (if searchOrg r rec then [t.length] else []) := by
  rw [matchIndices, matchIndices, List.length_append]
  have hlen : t.length + [rec].length = t.length + 1 := rfl
  rw [hlen, List.range_succ, List.filter_append]
  congr 1
  · apply List.filter_congr
    intro i hi
    rw [List.getElem?_append, if_pos (List.mem_range.mp hi)]
  · have hg : (t ++ [rec])[t.length]? = some rec := List.getElem?_concat_length t rec
    by_cases hsr : searchOrg r rec = true
    · simp [List.filter_cons, hg, hsr]
    · have hsr2 : searchOrg r rec = false := by simpa using hsr
      simp [List.filter_cons, hg, hsr2]

/-- The organization value of the placeholder record is the supplied name. -/
theorem orgOf_newRecord (name today : Str) : orgOf (newRecord name today) = some name := rfl

/-! ## The claims -/
/-- C1: sealing a payload under a passphrase through a `'w'`-mode
`CryptIOBroker` (derive key from passphrase and fresh salt, encrypt, emit
salt plus ciphertext) and opening the blob with the same passphrase returns
exactly the payload. -/
theorem C1_seal_open_inverse (p b : Str) (salt iv : List Nat) (hsalt : salt.length = 16)
    (hiv : iv.length = 16) (hb : ∀ c ∈ b, ValidCp c) :
    openBroker p (sealBroker p salt iv b) = .ok b := by
  have htake : (salt ++ fernetEncrypt (kdf p salt) iv (utf8Encode b)).take 16 = salt := by
    rw [← hsalt]
    exact List.take_left _ _
  have hdrop : (salt ++ fernetEncrypt (kdf p salt) iv (utf8Encode b)).drop 16
      = fernetEncrypt (kdf p salt) iv (utf8Encode b) := by
    rw [← hsalt]
    exact List.drop_left _ _
  simp only [sealBroker, openBroker, htake, hdrop, fernetDecrypt_encrypt _ _ _ hiv,
    utf8Decode_utf8Encode b hb]

/-- Witness for C1 at a concrete passphrase, salt, nonce and payload. -/
theorem C1_seal_open_inverse_witness :
    openBroker (strCodes "hunter2")
      (sealBroker (strCodes "hunter2") (strCodes "0123456789abcdef")
        (strCodes "fedcba9876543210") (strCodes "secret payload"))
      = .ok (strCodes "secret payload") :=
  C1_seal_open_inverse (strCodes "hunter2") (strCodes "secret payload")
    (strCodes "0123456789abcdef") (strCodes "fedcba9876543210")
    (by decide) (by decide) (by decide)

/-- C2: opening a blob sealed under one passphrase with a different
passphrase fails with the single `AuthenticationFailed` error and never
returns plaintext; and any blob whose ciphertext fails to decrypt — however
it was corrupted or truncated — surfaces as the same single error. -/
theorem C2_wrong_passphrase_rejection (p1 p2 b : Str) (salt iv blob : List Nat)
    (h1 : ∀ c ∈ p1, ValidCp c) (h2 : ∀ c ∈ p2, ValidCp c) (hne : p1 ≠ p2)
    (hsalt : salt.length = 16)
    (hfail : fernetDecrypt (kdf p2 (blob.take 16)) (blob.drop 16) = none) :
    openBroker p2 (sealBroker p1 salt iv b) = .error .authenticationFailed ∧
    openBroker p2 blob = .error .authenticationFailed := by
  constructor
  · have htake : (salt ++ fernetEncrypt (kdf p1 salt) iv (utf8Encode b)).take 16 = salt := by
      rw [← hsalt]
      exact List.take_left _ _
    have hdrop : (salt ++ fernetEncrypt (kdf p1 salt) iv (utf8Encode b)).drop 16
        = fernetEncrypt (kdf p1 salt) iv (utf8Encode b) := by
      rw [← hsalt]
      exact List.drop_left _ _
    have hbad : kdf p2 salt ≠ kdf p1 salt :=
      kdf_injective p2 p1 salt h2 h1 (fun h => hne h.symm)
    simp only [sealBroker, openBroker, htake, hdrop,
      fernetDecrypt_wrong_key _ _ _ _ hbad]
  · simp only [openBroker, hfail]

/-- Witness for C2: distinct concrete passphrases, and a 3-byte blob as the
truncated input. -/
theorem C2_wrong_passphrase_rejection_witness :
    openBroker (strCodes "beta")
      (sealBroker (strCodes "alpha") (strCodes "0123456789abcdef")
        (strCodes "fedcba9876543210") (strCodes "secret"))
      = .error .authenticationFailed ∧
    openBroker (strCodes "beta") [1, 2, 3] = .error .authenticationFailed :=
  C2_wrong_passphrase_rejection (strCodes "alpha") (strCodes "beta") (strCodes "secret")
    (strCodes "0123456789abcdef") (strCodes "fedcba9876543210") [1, 2, 3]
    (by decide) (by decide) (by decide) (by decide) (by decide)

/-- C3: the claim requires every Seal to draw a fresh random salt, never a
fixed one; `secure.py`'s broker hard-codes the same salt for every
instance and write (the defect), while the hardened broker's output blobs
do differ whenever the drawn salts differ. -/
theorem C3_fixed_salt_defect (p q pw : Str) (b b2 : Str) (salt1 salt2 iv1 iv2 : List Nat)
    (hl1 : salt1.length = 16) (hl2 : salt2.length = 16) (hne : salt1 ≠ salt2) :
    (secureBrokerInit p).salt = (secureBrokerInit q).salt ∧
    sealBroker pw salt1 iv1 b ≠ sealBroker pw salt2 iv2 b2 := by
  constructor
  · rfl
  · intro h
    apply hne
    have e1 : (salt1 ++ fernetEncrypt (kdf pw salt1) iv1 (utf8Encode b)).take 16 = salt1 := by
      rw [← hl1]
      exact List.take_left _ _
    have e2 : (salt2 ++ fernetEncrypt (kdf pw salt2) iv2 (utf8Encode b2)).take 16 = salt2 := by
      rw [← hl2]
      exact List.take_left _ _
    have := congrArg (List.take 16) h
    rw [sealBroker, sealBroker] at this
    rw [e1, e2] at this
    exact this

/-- Witness for C3 with two concrete distinct salts and two passphrases. -/
theorem C3_fixed_salt_defect_witness :
    (secureBrokerInit (strCodes "alpha")).salt = (secureBrokerInit (strCodes "beta")).salt ∧
    sealBroker (strCodes "pw") (strCodes "0123456789abcdef") (strCodes "fedcba9876543210")
        (strCodes "x")
      ≠ sealBroker (strCodes "pw") (strCodes "abcdef0123456789") (strCodes "fedcba9876543210")
        (strCodes "x") :=
  C3_fixed_salt_defect (strCodes "alpha") (strCodes "beta") (strCodes "pw") (strCodes "x")
    (strCodes "x") (strCodes "0123456789abcdef") (strCodes "abcdef0123456789")
    (strCodes "fedcba9876543210") (strCodes "fedcba9876543210")
    (by decide) (by decide) (by decide)

/-- C4 counterexample: on a 3-byte blob the broker treats all available
bytes as the salt, attempts decryption of the empty remainder, and fails
with the same `InvalidToken`-based `AuthenticationFailed` as any
authentication failure — not with a distinct `CorruptStore` error raised
before decryption, as the claim states. -/
theorem C4_counterexample_short_blob :
    [(1 : Nat), 2, 3].length < 16 ∧
    openBroker (strCodes "pw") [1, 2, 3] = .error .authenticationFailed := by
  constructor
  · decide
  · decide

/-- C4 amended: opening a blob shorter than 16 bytes fails with the same
`AuthenticationFailed` error as any failed decryption (the whole blob is
consumed as salt and decryption of the empty remainder is attempted). -/
theorem C4_short_blob_auth_failed (p : Str) (blob : List Nat) (h : blob.length < 16) :
    openBroker p blob = .error .authenticationFailed := by
  have hdrop : blob.drop 16 = [] := List.drop_eq_nil_of_le (by omega)
  simp only [openBroker, hdrop, fernetDecrypt]

/-- Witness for the amended C4 on a concrete 5-byte blob. -/
theorem C4_short_blob_auth_failed_witness :
    openBroker (strCodes "pw") [9, 9, 9, 9, 9] = .error .authenticationFailed :=
  C4_short_blob_auth_failed (strCodes "pw") [9, 9, 9, 9, 9] (by decide)

/-- C5: persist is claimed atomic — prior file untouched or fully the new
generation.  The trace of `close()` (truncate in place, then write salt,
then write ciphertext) passes through the empty file, a state that is
neither the prior contents nor the new generation, so an interrupted
persist can leave it behind. -/
theorem C5_persist_not_atomic :
    [] ∈ persistStates demoOld demoSalt demoCipher ∧ [] ≠ demoOld ∧
    [] ≠ demoSalt ++ demoCipher ∧
    persistStates demoOld demoSalt demoCipher ≠ [demoOld, demoSalt ++ demoCipher] := by
  refine ⟨?_, by decide, by decide, by decide⟩
  simp [persistStates]

/-- C6 counterexample: a Load-producible table (one short row, whose missing
columns Load fills with `None`) that does not survive
serialize-then-load — the `None` columns come back as empty strings, so the
round trip yields a different table. -/
theorem C6_counterexample_roundtrip :
    loadTable cePayload = .ok [ceShortRec] ∧
    serializeTable [ceShortRec] = .ok ceReserialized ∧
    loadTable ceReserialized = .ok [ceBlankRec] ∧
    ceBlankRec ≠ ceShortRec := by
  refine ⟨by decide, by decide, by decide, by decide⟩

/-- C6 amended: for every table whose records all carry exactly the 9 schema
columns with present (string) values — in particular every Load-producible
table with no short or long rows — serializing (header first, fields in
schema order, minimal quoting) and loading returns the same table: same
records, same order, same field values. -/
theorem C6_roundtrip_complete (recs : List PRecord) (p : Str)
    (h : ∀ r ∈ recs, CompleteRecord r) (hs : serializeTable recs = .ok p) :
    loadTable p = .ok recs :=
  loadTable_serializeTable recs p h hs

/-- Witness for the amended C6 on a concrete complete one-record table. -/
theorem C6_roundtrip_complete_witness :
    loadTable ceReserialized = .ok [ceBlankRec] :=
  C6_roundtrip_complete [ceBlankRec] ceReserialized (by decide) (by decide)

/-- C7: loading a payload whose header row is not exactly the 9-field schema
sequence fails with `SchemaMismatch` and produces no table. -/
theorem C7_schema_mismatch (p : Str) (hdr : List Str) (rows : List (List Str))
    (hp : parseCSV p = .ok (hdr :: rows)) (hne : hdr ≠ schema) :
    loadTable p = .error .schemaMismatch := by
  rw [loadTable, hp]
  show (if hdr = schema then
      Except.ok ((rows.filter (fun r => !r.isEmpty)).map mkRecord)
    else Except.error LoadError.schemaMismatch) = Except.error LoadError.schemaMismatch
  rw [if_neg hne]

/-- Witness for C7: the swapped-header payload is rejected. -/
theorem C7_schema_mismatch_witness :
    loadTable c7Payload = .error .schemaMismatch :=
  C7_schema_mismatch c7Payload c7Hdr [[strCodes "Acme"]] (by decide) (by decide)

/-- C8 counterexample: with the name `a+b` (a valid regex that does not
match the literal string `a+b`), the first upsert on the empty table
appends the placeholder record, but the second upsert does not find it and
appends a duplicate — the claim promises the second call finds exactly the
one record and appends nothing. -/
theorem C8_counterexample_regex_name :
    upsert [] abName d0 = .ok ([0], [newRecord abName d0]) ∧
    upsert [newRecord abName d0] abName d0
      = .ok ([1], [newRecord abName d0, newRecord abName d0]) := by
  refine ⟨by decide, by decide⟩

/-- C8 amended: when no record matches and the name, read as a regular
expression, matches its own text (as every metacharacter-free name does),
upsert appends exactly one record at the end — `ORGANIZATION` the name,
`DATE` today, the other seven fields the literal `'None'` — and returns the
previous length as its index; a second upsert with the same name then finds
exactly that record and appends nothing. -/
theorem C8_upsert_miss (t : List PRecord) (name today : Str) (r : Regex)
    (hc : reCompile name = .ok r)
    (hmiss : extractRecord t name = .ok [])
    (hself : reSearch r (name.map toLowerCh) = true) :
    upsert t name today = .ok ([t.length], t ++ [newRecord name today]) ∧
    (newRecord name today).fields
      = [some name, some (strCodes "None"), some (strCodes "None"), some (strCodes "None"),
         some (strCodes "None"), some (strCodes "None"), some today, some (strCodes "None"),
         some (strCodes "None")] ∧
    extractRecord (t ++ [newRecord name today]) name = .ok [t.length] ∧
    upsert (t ++ [newRecord name today]) name today
      = .ok ([t.length], t ++ [newRecord name today]) := by
  rw [extractRecord_ok t name r hc] at hmiss
  by_cases hall : t.all (fun rec => (orgOf rec).isSome) = true
  case neg =>
    rw [if_neg hall] at hmiss
    simp at hmiss
  rw [if_pos hall] at hmiss
  simp only [Except.ok.injEq] at hmiss
  have hsearch : searchOrg r (newRecord name today) = true := by
    rw [searchOrg, orgOf_newRecord]
    exact hself
  have hextr2 : extractRecord (t ++ [newRecord name today]) name = .ok [t.length] := by
    rw [extractRecord_ok _ name r hc]
    have hall2 : (t ++ [newRecord name today]).all
        (fun rec => (orgOf rec).isSome) = true := by
      rw [List.all_append, hall]
      rfl
    rw [if_pos hall2, matchIndices_append_one, hmiss, if_pos hsearch]
    rfl
  refine ⟨?_, rfl, hextr2, ?_⟩
  · rw [upsert, extractRecord_ok t name r hc, if_pos hall, hmiss]
  · rw [upsert, hextr2]

/-- Witness for the amended C8: upserting `a` into the empty table. -/
theorem C8_upsert_miss_witness :
    upsert [] (strCodes "a") d0 = .ok ([0], [newRecord (strCodes "a") d0]) ∧
    (newRecord (strCodes "a") d0).fields
      = [some (strCodes "a"), some (strCodes "None"), some (strCodes "None"),
         some (strCodes "None"), some (strCodes "None"), some (strCodes "None"), some d0,
         some (strCodes "None"), some (strCodes "None")] ∧
    extractRecord [newRecord (strCodes "a") d0] (strCodes "a") = .ok [0] ∧
    upsert [newRecord (strCodes "a") d0] (strCodes "a") d0
      = .ok ([0], [newRecord (strCodes "a") d0]) :=
  C8_upsert_miss [] (strCodes "a") d0 (.cat (.chr 97) .eps) (by decide) (by decide)
    (by decide)

/-- C9: supplying the empty string for any schema field of any valid record
index leaves the whole table unchanged — the `if (len(value))` guard of the
interactive update skips the assignment. -/
theorem C9_blank_value_noop (t : List PRecord) (i k : Nat) (hi : i < t.length)
    (_hk : k < 9) :
    setFieldTable t i k [] = t := by
  rw [setFieldTable, updateField, if_pos (show ([] : Str).length = 0 from rfl)]
  exact set_getD_self t i _ hi

/-- Witness for C9 on a concrete one-record table and the `USERID` column. -/
theorem C9_blank_value_noop_witness :
    setFieldTable [newRecord (strCodes "Acme") d0] 0 2 [] = [newRecord (strCodes "Acme") d0] :=
  C9_blank_value_noop [newRecord (strCodes "Acme") d0] 0 2 (by decide) (by decide)

/-- C10: the lookup compiles the supplied name as a regular expression: an
unbalanced parenthesis is a compile error surfaced by `extract_record`; a
metacharacter pattern matches as a regex and not as a literal substring
(`a.` finds `ab` although `a.` is not a substring of it); and for every
table whose records carry an organization value, a successfully compiled
pattern always yields an ordered (strictly increasing) index list without
error. -/
theorem C10_regex_lookup (t : List PRecord) (pat : Str) (r : Regex)
    (hc : reCompile pat = .ok r)
    (horg : t.all (fun rec => (orgOf rec).isSome) = true) :
    extractRecord t pat = .ok (matchIndices r t) ∧
    (matchIndices r t).Pairwise (· < ·) ∧
    reCompile (strCodes "(") = .error () ∧
    extractRecord [] (strCodes "(") = .error .badPattern ∧
    extractRecord [newRecord (strCodes "ab") d0] (strCodes "a.") = .ok [0] ∧
    isSubstr (strCodes "a.") (strCodes "ab") = false := by
  refine ⟨?_, ?_, by decide, by decide, by decide, by decide⟩
  · rw [extractRecord_ok t pat r hc, if_pos horg]
  · rw [matchIndices]
    exact List.Pairwise.sublist (List.filter_sublist _) (List.pairwise_lt_range _)

/-- Witness for C10 on a concrete two-record table and the pattern `a`. -/
theorem C10_regex_lookup_witness :
    extractRecord [newRecord (strCodes "Acme") d0, newRecord (strCodes "zzz") d0]
        (strCodes "a")
      = .ok (matchIndices (.cat (.chr 97) .eps)
          [newRecord (strCodes "Acme") d0, newRecord (strCodes "zzz") d0]) ∧
    (matchIndices (.cat (.chr 97) .eps)
        [newRecord (strCodes "Acme") d0, newRecord (strCodes "zzz") d0]).Pairwise (· < ·) ∧
    reCompile (strCodes "(") = .error () ∧
    extractRecord [] (strCodes "(") = .error .badPattern ∧
    extractRecord [newRecord (strCodes "ab") d0] (strCodes "a.") = .ok [0] ∧
    isSubstr (strCodes "a.") (strCodes "ab") = false :=
  C10_regex_lookup [newRecord (strCodes "Acme") d0, newRecord (strCodes "zzz") d0]
    (strCodes "a") (.cat (.chr 97) .eps) (by decide) (by decide)

end Pman
